import Mathlib

/-!
Shallow embedding of the realtime duplex speech session core of the
ChronoTravel repository: the sample codec (`encodePCM`, `decodeBase64`,
`decodeAudioData` in the live service module), the playback scheduler
(`onAudioChunk` / `onInterrupted` in `LiveAR.tsx`), and the inbound
message demultiplexer (`onmessage` in the live service module).

Modelling conventions:
- JS numbers carrying audio-clock times, durations and samples are
  modelled as rationals (all operations involved — max, +, division by
  32768, truncation — are exact on the values the code manipulates).
- JS binary strings (one char per byte) and base64 text are modelled as
  lists of UTF-16 char codes (`List Nat`); `String.fromCharCode b` for a
  byte `b < 256` produces the char with code `b`, and `charCodeAt`
  recovers it, so the byte↔binary-string steps are the identity on codes.
- Fallible operations return `Except`.
-/

/-! ## SampleCodec: PCM16 encoding (`encodePCM`) -/

/-- JS `ToIntegerOrInfinity` on a finite number: truncation toward zero.
This is the integer conversion applied when assigning into an
`Int16Array` (`int16[i] = data[i] * 32768`). -/
def jsTrunc (q : ℚ) : ℤ :=
  if 0 ≤ q then ⌊q⌋ else ⌈q⌉

/-- JS `ToInt16`: reduce an integer modulo 2^16 into `[-32768, 32768)`.
Together with `jsTrunc` this is the exact semantics of storing a number
into an `Int16Array` element. -/
def toInt16 (n : ℤ) : ℤ :=
  if n % 65536 < 32768 then n % 65536 else n % 65536 - 65536

/-- The per-sample step of `encodePCM`: `int16[i] = data[i] * 32768`
(no clamping; JS `Int16Array` assignment truncates toward zero and then
wraps modulo 2^16). -/
def sampleToInt16 (s : ℚ) : ℤ :=
  toInt16 (jsTrunc (s * 32768))

/-- Serialize a list of 16-bit values as little-endian byte pairs: the
`new Uint8Array(int16.buffer)` view inside `encodePCM` (platform
little-endian, as on every target of this code). -/
def int16sToBytes : List ℤ → List ℕ
  | [] => []
  | v :: rest =>
      let u := (v % 65536).toNat
      u % 256 :: u / 256 :: int16sToBytes rest

/-- The byte-level part of `encodePCM`: samples → `Int16Array` →
little-endian bytes. (The final `btoa` step is `btoaModel` below.) -/
def encodePCMBytes (data : List ℚ) : List ℕ :=
  int16sToBytes (data.map sampleToInt16)

/-! ## SampleCodec: base64 (`btoa` / `atob` / `decodeBase64`) -/

/-- The standard base64 alphabet, as a map from a sextet to the char
code of its digit (`A`-`Z`, `a`-`z`, `0`-`9`, `+`, `/`). -/
def b64code (n : ℕ) : ℕ :=
  if n < 26 then 65 + n
  else if n < 52 then 97 + (n - 26)
  else if n < 62 then 48 + (n - 52)
  else if n = 62 then 43
  else 47

/-- Inverse base64 digit lookup: char code → sextet value (on the char
codes produced by `b64code`; other codes would be rejected by `atob`,
which never happens on round-trip inputs). -/
def b64val (c : ℕ) : ℕ :=
  if 65 ≤ c ∧ c ≤ 90 then c - 65
  else if 97 ≤ c ∧ c ≤ 122 then c - 97 + 26
  else if 48 ≤ c ∧ c ≤ 57 then c - 48 + 52
  else if c = 43 then 62
  else 63

/-- JS `btoa` on a binary string, as char codes: groups of 3 bytes map
to 4 base64 digits; a 1- or 2-byte tail maps to 2 or 3 digits padded
with `=` (char code 61). -/
def btoaModel : List ℕ → List ℕ
  | [] => []
  | [a] => [b64code (a / 4), b64code (a % 4 * 16), 61, 61]
  | [a, b] => [b64code (a / 4), b64code (a % 4 * 16 + b / 16),
               b64code (b % 16 * 4), 61]
  | a :: b :: c :: rest =>
      (b64code (a / 4)) :: (b64code (a % 4 * 16 + b / 16)) ::
      (b64code (b % 16 * 4 + c / 64)) :: (b64code (c % 64)) :: btoaModel rest

/-- JS `atob` on base64 text, as char codes: each group of 4 digits
yields 3 bytes, except a final group ending in `=` (code 61), which
yields 1 or 2. This models `atob` only on well-formed base64 (which is
all `btoa` ever produces): real `atob` throws an `InvalidCharacterError`
on malformed text (characters outside the alphabet, or a length of
4k+1), an error path this total model deliberately does not carry. -/
def atobModel : List ℕ → List ℕ
  | c1 :: c2 :: c3 :: c4 :: rest =>
      if c3 = 61 then
        [b64val c1 * 4 + b64val c2 / 16]
      else if c4 = 61 then
        [b64val c1 * 4 + b64val c2 / 16,
         b64val c2 % 16 * 16 + b64val c3 / 4]
      else
        (b64val c1 * 4 + b64val c2 / 16) ::
        (b64val c2 % 16 * 16 + b64val c3 / 4) ::
        (b64val c3 % 4 * 64 + b64val c4) :: atobModel rest
  | _ => []

/-- `encodePCM` from the live service module: scale each float sample
into an `Int16Array`, view it as bytes, build the binary string and
`btoa` it. The result is the base64 transport text, as char codes. -/
def encodePCM (data : List ℚ) : List ℕ :=
  btoaModel (encodePCMBytes data)

/-- `decodeBase64` from the live service module: `atob` the text and
read each char code back as a byte. -/
def decodeBase64 (base64 : List ℕ) : List ℕ :=
  atobModel base64

/-- The spec's `bytesToTransportText`: the bytes-to-text step used by
`encodePCM` (`String.fromCharCode` per byte, then `btoa`). -/
def bytesToTransportText (bytes : List ℕ) : List ℕ :=
  btoaModel bytes

/-- The spec's `transportTextToBytes`: identical to `decodeBase64`. -/
def transportTextToBytes (text : List ℕ) : List ℕ :=
  decodeBase64 text

/-! ## SampleCodec: PCM16 decoding (`decodeAudioData`) -/

/-- The two ways `decodeAudioData` throws: `malformed` when the byte
buffer is not a whole number of 16-bit samples (the
`new Int16Array(data.buffer)` constructor throws a `RangeError` when
the byte length is not a multiple of 2; the spec calls this
`MalformedAudioError`), and `notSupported` when the resulting frame
count is zero (`ctx.createBuffer(numChannels, frameCount, sampleRate)`
must throw a `NotSupportedError` when `frameCount` is zero, per the Web
Audio specification). -/
inductive AudioError where
  | malformed
  | notSupported
deriving DecidableEq

/-- Read little-endian byte pairs back as signed 16-bit values: the
`new Int16Array(data.buffer)` view inside `decodeAudioData`. -/
def bytesToInt16s : List ℕ → List ℤ
  | b0 :: b1 :: rest => toInt16 ((b0 + 256 * b1 : ℕ) : ℤ) :: bytesToInt16s rest
  | _ => []

/-- `decodeAudioData` from the live service module, at its call-site
parameters (mono, the only configuration used in the repository): view
the bytes as an `Int16Array` — failing when the byte length is odd —
then create the output buffer with `frameCount` frames — failing with
`NotSupportedError` when `frameCount` is zero, i.e. on the empty
input — and map each sample `v` to `v / 32768.0`. -/
def decodeAudioData (data : List ℕ) : Except AudioError (List ℚ) :=
  if data.length % 2 ≠ 0 then .error .malformed
  else if data.length / 2 = 0 then .error .notSupported
  else .ok ((bytesToInt16s data).map fun v => (v : ℚ) / 32768)

/-! ## PlaybackScheduler (`LiveAR.tsx`)

The component keeps `nextStartTimeRef` (a number, initially `0`) and
`sourcesRef` (a set of in-flight `AudioBufferSourceNode`s). We model a
scheduled source by its start time and duration, and the two callbacks
`onAudioChunk` / `onInterrupted` as state transformers. The audio
clock's current time (`ctx.currentTime`) and the decoded buffer's
duration are inputs to `onAudioChunk`. -/

/-- One in-flight scheduled buffer: `source.start(t)` was called with
`t = scheduledStart` on a buffer of length `duration` seconds. -/
structure PlaybackHandle where
  scheduledStart : ℚ
  duration : ℚ
deriving DecidableEq

/-- The scheduler's mutable state in `LiveAR.tsx`:
`nextStartTimeRef.current` and `sourcesRef.current`. The set of nodes
is modelled as a list (insertion at the head; multiplicity is never
exercised by the code's control flow). -/
structure SchedState where
  nextStartTime : ℚ
  activeHandles : List PlaybackHandle
deriving DecidableEq

/-- The state `LiveAR.tsx` starts a session with:
`nextStartTimeRef = useRef(0)`, empty source set. -/
def initialSchedState : SchedState :=
  { nextStartTime := 0, activeHandles := [] }

/-- `onAudioChunk` from `LiveAR.tsx`, given the audio clock's current
time `now` and the decoded buffer's duration `dur`:

    nextStartTimeRef.current = Math.max(nextStartTimeRef.current, ctx.currentTime);
    source.start(nextStartTimeRef.current);
    nextStartTimeRef.current += buffer.duration;
    sourcesRef.current.add(source);

Returns the new state together with the start time passed to
`source.start`. -/
def onAudioChunk (st : SchedState) (now dur : ℚ) : SchedState × ℚ :=
  let start := max st.nextStartTime now
  ({ nextStartTime := start + dur,
     activeHandles := { scheduledStart := start, duration := dur } :: st.activeHandles },
   start)

/-- `onInterrupted` from `LiveAR.tsx`:

    sourcesRef.current.forEach(s => s.stop());
    sourcesRef.current.clear();
    nextStartTimeRef.current = 0;

Every active source is stopped (hence removed), and the cursor is reset
to the clock origin. -/
def onInterrupted (_st : SchedState) : SchedState :=
  { nextStartTime := 0, activeHandles := [] }

/-- The `source.onended` callback from `LiveAR.tsx`: natural completion
removes the node from the set and changes nothing else. -/
def onEnded (st : SchedState) (h : PlaybackHandle) : SchedState :=
  { st with activeHandles := st.activeHandles.erase h }

/-- One scheduler entry point with its inputs. -/
inductive SchedEvent where
  | chunk (now dur : ℚ)
  | interrupt
deriving DecidableEq

/-- Apply one scheduler entry point. -/
def schedStep (st : SchedState) : SchedEvent → SchedState
  | .chunk now dur => (onAudioChunk st now dur).1
  | .interrupt => onInterrupted st

/-- Apply a sequence of scheduler entry points in order. -/
def schedRun (st : SchedState) (evts : List SchedEvent) : SchedState :=
  evts.foldl schedStep st

/-- Deliver a sequence of chunks `(now, dur)` in order and record the
start time each `source.start` call receives. -/
def runChunks (st : SchedState) : List (ℚ × ℚ) → List ℚ
  | [] => []
  | (now, dur) :: rest =>
      let r := onAudioChunk st now dur
      r.2 :: runChunks r.1 rest

/-- State after delivering a sequence of chunks. -/
def runChunksState (st : SchedState) : List (ℚ × ℚ) → SchedState
  | [] => st
  | (now, dur) :: rest => runChunksState (onAudioChunk st now dur).1 rest

/-- Each chunk in the list arrives no later than the cursor position it
meets: the first no later than `t`, and each later one no later than
its predecessor's scheduled end. -/
def allInTime (t : ℚ) : List (ℚ × ℚ) → Prop
  | [] => True
  | (now, dur) :: rest => now ≤ t ∧ allInTime (max t now + dur) rest

instance (t : ℚ) (l : List (ℚ × ℚ)) : Decidable (allInTime t l) := by
  induction l generalizing t with
  | nil => exact isTrue trivial
  | cons p rest ih =>
      obtain ⟨now, dur⟩ := p
      exact @instDecidableAnd _ _ inferInstance (ih (max t now + dur))

/-- The spec's gapless timeline, written exactly as the claim states
it: with the first chunk starting at `s0`, chunk `k` (0-indexed here)
starts at `s0` plus the sum of the durations of the chunks before it. -/
def cumStarts (s0 : ℚ) (ds : List ℚ) : List ℚ :=
  (List.range ds.length).map fun k => s0 + ((ds.take k).sum)

/-! ## SessionTransport inbound demultiplexer (`onmessage`)

The live service module installs an `onmessage` handler that inspects
one `LiveServerMessage` and fires the session callbacks. We model the
message shape down to the optional fields the handler reads, and the
handler itself as a pure function from the message to the multiset of
callback invocations it performs. -/

/-- A transcription object (`outputTranscription` /
`inputTranscription`): the handler reads its `text` field. -/
structure Transcription where
  text : String
deriving DecidableEq

/-- One part of a model turn (the SDK calls this type `Part`; renamed
here to avoid a clash with an existing name); the handler reads
`parts[k]?.inlineData?.data`, so we record that optional chain's
result: `none` when `inlineData` or its `data` is absent. -/
structure MsgPart where
  inlineData : Option String
deriving DecidableEq

/-- `serverContent.modelTurn`. -/
structure ModelTurn where
  parts : List MsgPart
deriving DecidableEq

/-- `message.serverContent`, restricted to the fields `onmessage`
reads. -/
structure ServerContent where
  outputTranscription : Option Transcription
  inputTranscription : Option Transcription
  modelTurn : Option ModelTurn
  interrupted : Bool
deriving DecidableEq

/-- An inbound provider message, restricted to the fields `onmessage`
reads. -/
structure LiveServerMessage where
  serverContent : Option ServerContent
deriving DecidableEq

/-- The callback invocations one `onmessage` run performs:
`onTranscription(text, isUser)` calls in order, `onAudioChunk(base64)`
calls, and the number of `onInterrupted()` calls. -/
structure CallbackCalls where
  transcriptions : List (String × Bool)
  audioChunks : List String
  interruptedCalls : ℕ
deriving DecidableEq

/-- The optional chain
`message.serverContent?.modelTurn?.parts[0]?.inlineData?.data`. -/
def inlineAudio (m : LiveServerMessage) : Option String :=
  (((m.serverContent.bind fun sc => sc.modelTurn).bind
      fun mt => mt.parts.head?).bind fun p => p.inlineData)

/-- The `onmessage` handler from the live service module:

    if (message.serverContent?.outputTranscription) {
      callbacks.onTranscription(...text, false);
    } else if (message.serverContent?.inputTranscription) {
      callbacks.onTranscription(...text, true);
    }
    const audio = message.serverContent?.modelTurn?.parts[0]?.inlineData?.data;
    if (audio) { callbacks.onAudioChunk(audio); }
    if (message.serverContent?.interrupted) { callbacks.onInterrupted(); }

Note the `else if` between the two transcription branches, the
truthiness test `if (audio)` (an empty string is falsy in JS), and that
only `parts[0]` is consulted for audio. -/
def onmessage (m : LiveServerMessage) : CallbackCalls :=
  { transcriptions :=
      match m.serverContent with
      | none => []
      | some sc =>
          match sc.outputTranscription with
          | some tr => [(tr.text, false)]
          | none =>
              match sc.inputTranscription with
              | some tr => [(tr.text, true)]
              | none => []
    audioChunks :=
      match inlineAudio m with
      | some s => if s = "" then [] else [s]
      | none => []
    interruptedCalls :=
      match m.serverContent with
      | none => 0
      | some sc => if sc.interrupted then 1 else 0 }

/-! ## Codec lemmas -/

theorem toInt16_eq_self {v : ℤ} (h1 : -32768 ≤ v) (h2 : v < 32768) :
    toInt16 v = v := by
  unfold toInt16
  omega

theorem jsTrunc_range {q : ℚ} (h1 : -32768 ≤ q) (h2 : q < 32768) :
    -32768 ≤ jsTrunc q ∧ jsTrunc q < 32768 := by
  unfold jsTrunc
  split
  next h =>
    refine ⟨?_, ?_⟩
    · have : (0 : ℤ) ≤ ⌊q⌋ := Int.floor_nonneg.mpr h
      omega
    · exact Int.floor_lt.mpr (by exact_mod_cast h2)
  next h =>
    refine ⟨?_, ?_⟩
    · have hq : ((-32768 : ℤ) : ℚ) ≤ q := by exact_mod_cast h1
      have h3 : ((-32768 : ℤ) : ℚ) ≤ (⌈q⌉ : ℚ) := le_trans hq (Int.le_ceil q)
      exact_mod_cast h3
    · have : ⌈q⌉ ≤ 0 := Int.ceil_le.mpr (le_of_lt (lt_of_not_le h))
      omega

theorem abs_sub_jsTrunc_lt_one (q : ℚ) : |q - (jsTrunc q : ℚ)| < 1 := by
  unfold jsTrunc
  split
  next h =>
    rw [abs_of_nonneg (by linarith [Int.floor_le q])]
    linarith [Int.lt_floor_add_one q]
  next h =>
    rw [abs_of_nonpos (by linarith [Int.le_ceil q])]
    linarith [Int.ceil_lt_add_one q]

theorem b64val_b64code {n : ℕ} (h : n < 64) : b64val (b64code n) = n := by
  revert n h
  decide

theorem b64code_ne_61 (n : ℕ) : b64code n ≠ 61 := by
  unfold b64code
  split_ifs <;> omega

/-- Decoding inverts encoding on every byte list: the pure base64 heart
of the transport-text round trip. -/
theorem atob_btoa (B : List ℕ) (hB : ∀ b ∈ B, b < 256) :
    atobModel (btoaModel B) = B := by
  induction B using btoaModel.induct with
  | case1 => rfl
  | case2 a =>
      have ha : a < 256 := hB a (by simp)
      rw [btoaModel, atobModel]
      rw [if_pos rfl]
      rw [b64val_b64code (by omega), b64val_b64code (by omega)]
      simp only [List.cons.injEq, and_true]
      omega
  | case3 a b =>
      have ha : a < 256 := hB a (by simp)
      have hb : b < 256 := hB b (by simp)
      rw [btoaModel, atobModel]
      rw [if_neg (b64code_ne_61 _), if_pos rfl]
      rw [b64val_b64code (by omega), b64val_b64code (by omega),
          b64val_b64code (by omega)]
      simp only [List.cons.injEq, and_true]
      constructor <;> omega
  | case4 a b c rest ih =>
      have ha : a < 256 := hB a (by simp)
      have hb : b < 256 := hB b (by simp)
      have hc : c < 256 := hB c (by simp)
      have hrest : ∀ x ∈ rest, x < 256 := fun x hx => hB x (by simp [hx])
      rw [btoaModel, atobModel]
      rw [if_neg (b64code_ne_61 _), if_neg (b64code_ne_61 _)]
      rw [b64val_b64code (by omega), b64val_b64code (by omega),
          b64val_b64code (by omega), b64val_b64code (by omega)]
      rw [ih hrest]
      simp only [List.cons.injEq, and_true]
      refine ⟨by omega, by omega, by omega⟩

/-! ## Claims C6-C9: the sample codec -/

/-- Claim C6: for every sample `s` in `[-1, 1)`, decoding the
single-sample encoding round-trips within quantization error — the
decode of `encodePCM16([s])` succeeds with one sample that differs from
`s` by at most `1/32768`. -/
theorem pcm_single_sample_roundtrip (s : ℚ) (hlo : -1 ≤ s) (hhi : s < 1) :
    decodeAudioData (encodePCMBytes [s]) =
      .ok [((sampleToInt16 s : ℤ) : ℚ) / 32768] ∧
    |s - ((sampleToInt16 s : ℤ) : ℚ) / 32768| ≤ 1 / 32768 := by
  have ht1 : (-32768 : ℚ) ≤ s * 32768 := by linarith
  have ht2 : s * 32768 < 32768 := by linarith
  obtain ⟨hv1, hv2⟩ := jsTrunc_range ht1 ht2
  set v := jsTrunc (s * 32768) with hv
  have hsv : sampleToInt16 s = v := toInt16_eq_self hv1 hv2
  constructor
  · have henc : encodePCMBytes [s] =
        [(v % 65536).toNat % 256, (v % 65536).toNat / 256] := by
      simp [encodePCMBytes, int16sToBytes, hsv]
    have hrecomb :
        (((v % 65536).toNat % 256 + 256 * ((v % 65536).toNat / 256) : ℕ) : ℤ)
          = v % 65536 := by
      omega
    have hbytes :
        bytesToInt16s [(v % 65536).toNat % 256, (v % 65536).toNat / 256]
          = [v] := by
      simp only [bytesToInt16s]
      rw [hrecomb]
      have : toInt16 (v % 65536) = v := by
        unfold toInt16
        omega
      rw [this]
    rw [henc]
    unfold decodeAudioData
    rw [if_neg (by norm_num), if_neg (by norm_num)]
    rw [hbytes, hsv]
    rfl
  · rw [hsv]
    have habs := le_of_lt (abs_sub_jsTrunc_lt_one (s * 32768))
    rw [show s - (v : ℚ) / 32768 = (s * 32768 - (v : ℚ)) / 32768 by ring]
    rw [abs_div, abs_of_pos (by norm_num : (0:ℚ) < 32768)]
    rw [div_le_div_iff₀ (by norm_num) (by norm_num)]
    rw [hv]
    linarith [habs]

/-- Witness for C6 at `s = 1/2`. -/
theorem pcm_single_sample_roundtrip_witness :
    decodeAudioData (encodePCMBytes [(1 : ℚ)/2]) =
      .ok [((sampleToInt16 ((1 : ℚ)/2) : ℤ) : ℚ) / 32768] ∧
    |(1 : ℚ)/2 - ((sampleToInt16 ((1 : ℚ)/2) : ℤ) : ℚ) / 32768| ≤ 1 / 32768 :=
  pcm_single_sample_roundtrip (1/2) (by norm_num) (by norm_num)

/-- Counterexample for C7: at `s = 3/65536` the scaled value is `3/2`;
the claim's `round` gives `2`, but the code's `Int16Array` assignment
truncates toward zero and stores `1`. -/
theorem encode_round_cex :
    sampleToInt16 (3 / 65536) ≠ toInt16 (round ((3 / 65536 : ℚ) * 32768)) := by
  norm_num [sampleToInt16, jsTrunc, toInt16, round_eq]

/-- Claim C7 (amended): `encodePCM16` maps each sample `s` to
`trunc(s * 32768)` (truncation toward zero, not rounding) reduced
modulo 2^16 into a signed 16-bit integer; out-of-range input is not
clamped but silently wraps — e.g. `1.0` encodes as `-32768` and `2.0`
as `0`. -/
theorem encode_trunc_no_clamp :
    (∀ s : ℚ,
        (jsTrunc (s * 32768) - sampleToInt16 s) % 65536 = 0 ∧
        -32768 ≤ sampleToInt16 s ∧ sampleToInt16 s < 32768 ∧
        |s * 32768 - (jsTrunc (s * 32768) : ℚ)| < 1) ∧
    sampleToInt16 1 = -32768 ∧ sampleToInt16 2 = 0 := by
  refine ⟨fun s => ⟨?_, ?_, ?_, abs_sub_jsTrunc_lt_one (s * 32768)⟩, ?_, ?_⟩
  · unfold sampleToInt16 toInt16
    omega
  · unfold sampleToInt16 toInt16
    omega
  · unfold sampleToInt16 toInt16
    omega
  · norm_num [sampleToInt16, jsTrunc, toInt16]
  · norm_num [sampleToInt16, jsTrunc, toInt16]

/-- Claim C8: the transport text encoding is byte-preserving and
reversible — decoding the transport text of any byte buffer yields the
buffer back. -/
theorem transport_text_roundtrip (B : List ℕ) (hB : ∀ b ∈ B, b < 256) :
    transportTextToBytes (bytesToTransportText B) = B :=
  atob_btoa B hB

/-- Witness for C8 on a 4-byte buffer (exercising both a full base64
group and a padded tail). -/
theorem transport_text_roundtrip_witness :
    transportTextToBytes (bytesToTransportText [0, 61, 255, 128]) =
      [0, 61, 255, 128] :=
  transport_text_roundtrip [0, 61, 255, 128] (by decide)

/-- Counterexample for C9: the empty byte buffer has even length, yet
decoding it does not succeed — its frame count is zero, so buffer
creation fails with the not-supported error, a second error condition
the claim denies. -/
theorem decode_empty_even_cex :
    ([] : List ℕ).length % 2 = 0 ∧
    decodeAudioData ([] : List ℕ) = .error .notSupported :=
  ⟨rfl, rfl⟩

/-- Claim C9 (amended): decoding has exactly two error conditions — an
input whose byte length is not a multiple of the 2-byte element size
fails with the malformed-audio error, and the empty input fails with
the not-supported error raised by zero-frame buffer creation; every
nonempty input of even byte length decodes successfully. -/
theorem decode_error_conditions (d : List ℕ) :
    ((decodeAudioData d).isOk = true ↔ (d.length % 2 = 0 ∧ d ≠ [])) ∧
    (d.length % 2 ≠ 0 → decodeAudioData d = .error .malformed) ∧
    (d.length % 2 = 0 → d = [] → decodeAudioData d = .error .notSupported) := by
  unfold decodeAudioData
  by_cases h1 : d.length % 2 = 0
  · by_cases h2 : d = []
    · subst h2
      simp [Except.isOk, Except.toBool]
    · have hlen : d.length ≠ 0 := fun h => h2 (List.length_eq_zero.mp h)
      have h3 : ¬ d.length / 2 = 0 := by omega
      simp [h1, h2, h3, Except.isOk, Except.toBool]
  · simp [h1, Except.isOk, Except.toBool]

/-- Witness for C9 (amended): an odd-length buffer fails as malformed,
the empty buffer fails as not supported, and a nonempty even-length
buffer decodes. -/
theorem decode_error_conditions_witness :
    decodeAudioData [1, 2, 3] = .error .malformed ∧
    decodeAudioData ([] : List ℕ) = .error .notSupported ∧
    (decodeAudioData [1, 2]).isOk = true :=
  ⟨(decode_error_conditions [1, 2, 3]).2.1 (by decide),
   (decode_error_conditions []).2.2 (by decide) rfl,
   (decode_error_conditions [1, 2]).1.mpr (by decide)⟩

/-! ## Scheduler lemmas -/

theorem cumStarts_cons (s0 d : ℚ) (ds : List ℚ) :
    cumStarts s0 (d :: ds) = s0 :: cumStarts (s0 + d) ds := by
  unfold cumStarts
  rw [List.length_cons, List.range_succ_eq_map, List.map_cons, List.map_map]
  simp only [List.take_zero, List.sum_nil, add_zero, List.cons.injEq, true_and]
  apply List.map_congr_left
  intro k _
  simp only [Function.comp_apply, List.take_succ_cons, List.sum_cons]
  ring

/-- When every chunk of a run arrives no later than the cursor position
it meets, the recorded start times are the back-to-back timeline from
the cursor's initial position. -/
theorem runChunks_gapless (chunks : List (ℚ × ℚ)) (st : SchedState)
    (h : allInTime st.nextStartTime chunks) :
    runChunks st chunks = cumStarts st.nextStartTime (chunks.map Prod.snd) := by
  induction chunks generalizing st with
  | nil => rfl
  | cons p rest ih =>
      obtain ⟨now, dur⟩ := p
      obtain ⟨h1, h2⟩ := h
      rw [max_eq_left h1] at h2
      rw [List.map_cons, cumStarts_cons]
      show (onAudioChunk st now dur).2 ::
          runChunks (onAudioChunk st now dur).1 rest = _
      have hstart : (onAudioChunk st now dur).2 = st.nextStartTime := by
        simp [onAudioChunk, max_eq_left h1]
      have hstate : (onAudioChunk st now dur).1.nextStartTime
          = st.nextStartTime + dur := by
        simp [onAudioChunk, max_eq_left h1]
      rw [hstart]
      rw [ih _ (hstate ▸ h2)]
      rw [hstate]

/-! ## Claims C1-C4: the playback scheduler -/

/-- Claim C1: for every sequence of chunks delivered in order, each
arriving before its predecessor's scheduled end (and no interruption in
between), the scheduled start of chunk `k` equals the scheduled start
of chunk 1 plus the sum of the durations of chunks `1..k-1` — zero gap
and zero overlap. -/
theorem gapless_scheduling (st : SchedState) (n1 d1 : ℚ) (rest : List (ℚ × ℚ))
    (h : allInTime (max st.nextStartTime n1 + d1) rest) :
    runChunks st ((n1, d1) :: rest) =
      cumStarts (max st.nextStartTime n1) (d1 :: rest.map Prod.snd) := by
  rw [cumStarts_cons]
  show (onAudioChunk st n1 d1).2 :: runChunks (onAudioChunk st n1 d1).1 rest = _
  have hstart : (onAudioChunk st n1 d1).2 = max st.nextStartTime n1 := rfl
  have hstate : (onAudioChunk st n1 d1).1.nextStartTime
      = max st.nextStartTime n1 + d1 := rfl
  rw [hstart, runChunks_gapless rest _ (by rw [hstate]; exact h), hstate]

/-- Witness for C1: the spec's own scenario — three half-second chunks,
the second and third arriving with jitter but before their
predecessor's scheduled end. -/
theorem gapless_scheduling_witness :
    runChunks initialSchedState [(0, 1/2), (1/4, 1/2), (1/2, 1/2)] =
      cumStarts (max initialSchedState.nextStartTime 0)
        ((1:ℚ)/2 :: ([((1:ℚ)/4, (1:ℚ)/2), (1/2, 1/2)].map Prod.snd)) :=
  gapless_scheduling initialSchedState 0 (1/2) [(1/4, 1/2), (1/2, 1/2)]
    (by constructor <;> norm_num [allInTime, initialSchedState])

/-- Claim C2: `onInterrupted` empties the set of active handles and
resets the cursor, so the next chunk delivered to `onAudioChunk` is
scheduled to start at the audio clock's current time. -/
theorem interrupt_clears_queue (st : SchedState) (now dur : ℚ)
    (hnow : 0 ≤ now) :
    (onInterrupted st).activeHandles = [] ∧
    (onInterrupted st).nextStartTime = 0 ∧
    (onAudioChunk (onInterrupted st) now dur).2 = now := by
  refine ⟨rfl, rfl, ?_⟩
  show max (0 : ℚ) now = now
  exact max_eq_right hnow

/-- Witness for C2: a state with one pending handle and a queue end of
5 s; after the interrupt a chunk arriving at clock time 2 starts at 2,
not at 5. -/
theorem interrupt_clears_queue_witness :
    (onInterrupted ⟨5, [⟨0, 5⟩]⟩).activeHandles = [] ∧
    (onInterrupted ⟨5, [⟨0, 5⟩]⟩).nextStartTime = 0 ∧
    (onAudioChunk (onInterrupted ⟨5, [⟨0, 5⟩]⟩) 2 1).2 = 2 :=
  interrupt_clears_queue ⟨5, [⟨0, 5⟩]⟩ 2 1 (by norm_num)

/-- Claim C3: every chunk is scheduled at
`max(cursor.nextStartTime, audioClockNow())`; in particular a chunk
arriving after the cursor has passed starts at "now", never at the
stale past value. -/
theorem late_arrival_clamp (st : SchedState) (now dur : ℚ) :
    (onAudioChunk st now dur).2 = max st.nextStartTime now ∧
    (st.nextStartTime < now → (onAudioChunk st now dur).2 = now) := by
  refine ⟨rfl, fun h => ?_⟩
  show max st.nextStartTime now = now
  exact max_eq_right (le_of_lt h)

/-- Witness for C3: a chunk arriving at clock time 2 when the cursor
still reads 1 is scheduled at 2. -/
theorem late_arrival_clamp_witness :
    (onAudioChunk ⟨1, []⟩ 2 1).2 = max (1 : ℚ) 2 ∧
    (onAudioChunk ⟨1, []⟩ 2 1).2 = 2 :=
  ⟨(late_arrival_clamp ⟨1, []⟩ 2 1).1,
   (late_arrival_clamp ⟨1, []⟩ 2 1).2 (by norm_num)⟩

/-- Counterexample for C4: `nextStartTime` is not monotone across every
sequence of scheduler operations — scheduling a 1-second chunk at clock
time 0 moves the cursor to 1, and a subsequent `onInterrupted` resets
it to 0. -/
theorem nextStartTime_monotone_cex :
    ¬ ((schedRun initialSchedState [.chunk 0 1]).nextStartTime ≤
       (schedRun initialSchedState [.chunk 0 1, .interrupt]).nextStartTime) := by
  norm_num [schedRun, schedStep, onAudioChunk, onInterrupted, initialSchedState]

/-- Claim C4 (amended): across every sequence of `onAudioChunk`
operations with no intervening `onInterrupted` (and nonnegative
durations), `cursor.nextStartTime` is monotonically non-decreasing; and
for two consecutively scheduled buffers,
`start(i+1) >= start(i) + duration(i)`, with equality whenever buffer
`i+1` arrived no later than `start(i) + duration(i)`. -/
theorem sched_monotone_no_interrupt :
    (∀ (st : SchedState) (chunks : List (ℚ × ℚ)),
        (∀ p ∈ chunks, 0 ≤ p.2) →
        st.nextStartTime ≤ (runChunksState st chunks).nextStartTime) ∧
    (∀ (st : SchedState) (n1 d1 n2 d2 : ℚ),
        (onAudioChunk st n1 d1).2 + d1 ≤
          (onAudioChunk (onAudioChunk st n1 d1).1 n2 d2).2 ∧
        (n2 ≤ (onAudioChunk st n1 d1).2 + d1 →
          (onAudioChunk (onAudioChunk st n1 d1).1 n2 d2).2 =
            (onAudioChunk st n1 d1).2 + d1)) := by
  constructor
  · intro st chunks
    induction chunks generalizing st with
    | nil => intro _; exact le_refl _
    | cons p rest ih =>
        obtain ⟨now, dur⟩ := p
        intro hd
        have hdur : 0 ≤ dur := hd (now, dur) (by simp)
        have h1 : st.nextStartTime ≤ (onAudioChunk st now dur).1.nextStartTime := by
          simp only [onAudioChunk]
          have := le_max_left st.nextStartTime now
          linarith
        exact le_trans h1 (ih _ (fun p hp => hd p (by simp [hp])))
  · intro st n1 d1 n2 d2
    constructor
    · exact le_max_left _ _
    · intro h
      exact max_eq_left h

/-- Witness for C4 (amended): two 1-second chunks with the second
arriving mid-playback of the first. -/
theorem sched_monotone_no_interrupt_witness :
    initialSchedState.nextStartTime ≤
      (runChunksState initialSchedState [(0, 1), (1/2, 1)]).nextStartTime ∧
    (onAudioChunk (onAudioChunk initialSchedState 0 1).1 (1/2) 1).2 =
      (onAudioChunk initialSchedState 0 1).2 + 1 :=
  ⟨sched_monotone_no_interrupt.1 initialSchedState [(0, 1), (1/2, 1)]
     (by intro p hp; fin_cases hp <;> norm_num),
   (sched_monotone_no_interrupt.2 initialSchedState 0 1 (1/2) 1).2
     (by norm_num [onAudioChunk, initialSchedState])⟩

/-! ## Claims C5 and C10: the inbound demultiplexer -/

/-- A provider message carrying every payload kind at once: an output
transcript, an input transcript, inline audio in the first part, and
the interruption flag. -/
def bothTranscriptsMsg : LiveServerMessage :=
  { serverContent := some
      { outputTranscription := some { text := "guide line" }
        inputTranscription := some { text := "user line" }
        modelTurn := some { parts := [{ inlineData := some "AAAA" }] }
        interrupted := true } }

/-- Counterexample for C5: on a message carrying both an output and an
input transcript fragment (plus audio and the interruption flag), the
USER transcription callback is never invoked — the two transcript
branches are an `else if` chain, so only the ASSISTANT callback fires;
audio and interruption are still processed. -/
theorem demux_not_exclusive_cex :
    ("user line", true) ∉ (onmessage bothTranscriptsMsg).transcriptions ∧
    (onmessage bothTranscriptsMsg).transcriptions = [("guide line", false)] ∧
    (onmessage bothTranscriptsMsg).audioChunks = ["AAAA"] ∧
    (onmessage bothTranscriptsMsg).interruptedCalls = 1 := by
  refine ⟨?_, rfl, ?_, rfl⟩
  · decide
  · decide

/-- Claim C5 (amended): for every inbound message, the inline-audio
forward and the interruption forward are each processed independently
of the transcripts and of each other; the two transcript kinds are the
exception — they are mutually exclusive, with the output (ASSISTANT)
fragment taking precedence and the input (USER) fragment only delivered
when no output fragment is present. -/
theorem demux_fanout (m : LiveServerMessage) (sc : ServerContent)
    (hm : m.serverContent = some sc) :
    (∀ tr, sc.outputTranscription = some tr →
        (onmessage m).transcriptions = [(tr.text, false)]) ∧
    (sc.outputTranscription = none →
      ∀ tr, sc.inputTranscription = some tr →
        (onmessage m).transcriptions = [(tr.text, true)]) ∧
    (∀ s, inlineAudio m = some s → s ≠ "" →
        (onmessage m).audioChunks = [s]) ∧
    (sc.interrupted = true → (onmessage m).interruptedCalls = 1) := by
  refine ⟨?_, ?_, ?_, ?_⟩
  · intro tr htr
    simp [onmessage, hm, htr]
  · intro hout tr htr
    simp [onmessage, hm, hout, htr]
  · intro s hs hne
    simp [onmessage, hs, hne]
  · intro hint
    simp [onmessage, hm, hint]

/-- Witness for C5 (amended), on the all-payload message. -/
theorem demux_fanout_witness :
    (onmessage bothTranscriptsMsg).transcriptions = [("guide line", false)] ∧
    (onmessage bothTranscriptsMsg).audioChunks = ["AAAA"] ∧
    (onmessage bothTranscriptsMsg).interruptedCalls = 1 :=
  ⟨(demux_fanout bothTranscriptsMsg _ rfl).1 _ rfl,
   (demux_fanout bothTranscriptsMsg _ rfl).2.2.1 "AAAA" rfl (by decide),
   (demux_fanout bothTranscriptsMsg _ rfl).2.2.2 rfl⟩

/-- Claim C10: the demultiplexer reads inline audio only from the first
part of the model turn — whenever `parts[0]` carries no inline data, no
audio chunk is forwarded, regardless of what the later parts carry. -/
theorem audio_only_from_first_part (m : LiveServerMessage)
    (sc : ServerContent) (mt : ModelTurn) (p0 : MsgPart)
    (hm : m.serverContent = some sc) (hmt : sc.modelTurn = some mt)
    (hp : mt.parts.head? = some p0) (hnone : p0.inlineData = none) :
    (onmessage m).audioChunks = [] := by
  have h : inlineAudio m = none := by
    unfold inlineAudio
    simp [hm, hmt, hp, hnone]
  simp [onmessage, h]

/-- A message whose inline audio sits in `parts[1]` while `parts[0]`
has none. -/
def secondPartAudioMsg : LiveServerMessage :=
  { serverContent := some
      { outputTranscription := none
        inputTranscription := none
        modelTurn := some
          { parts := [{ inlineData := none }, { inlineData := some "QUJD" }] }
        interrupted := false } }

/-- Witness for C10: the audio in `parts[1]` is silently dropped. -/
theorem audio_only_from_first_part_witness :
    (onmessage secondPartAudioMsg).audioChunks = [] :=
  audio_only_from_first_part secondPartAudioMsg _ _ _ rfl rfl rfl rfl
